import Mathlib

/-!
Verification of the TRG (Terminal Rhythm Game) engine, `game_engine.py`.

This file gives a shallow embedding of the note-lifecycle and judgement
state machine (`Note` / `Track` / `JudgementSystem` / `GameState`) and
proves or refutes the specification claims about it.

Modelling conventions:
* Python `int` millisecond times and scores become `Int`; counters become `Nat`.
* Python `float` score weights (1.0, 0.65, 0.0) and the difficulty factors
  (1.3, 1.0, 0.8, 0.6, 0.5) become the corresponding exact fractions over
  the integers.  For every value the engine actually computes
  (`int(window * factor)` for the window table 80/160/200, and
  `math.ceil(MAX_SCORE / total_notes * weight)`), the IEEE-754 double
  result agrees with exact fraction arithmetic, because the quotients
  involved are never within the accumulated rounding error of an integer,
  so the integer model below is exact.  The accuracy value (a float the
  engine only returns) is modelled as the exact rational.
* The per-object mutation of Python is modelled by threading a `GameState`
  record; loops over `self.notes` (which mutate only the visited note and
  scalar fields) become folds over the list of note ids, each step locating
  its note by id (`Note.id` values are unique in every state the engine
  builds, since `Note._next_id` is a monotone allocator).
* Logging, audio and the callback hooks are side effects invisible to the
  claims and are omitted.
-/

/-- NoteType enum of the engine: normal / hold / drag. -/
inductive NoteType where
  | normal
  | hold
  | drag
deriving DecidableEq, Repr

/-- JudgementResult enum: PERFECT / GOOD / BAD / MISS. -/
inductive JudgementResult where
  | perfect
  | good
  | bad
  | miss
deriving DecidableEq, Repr

/-- Difficulty enum: easy / normal / hard / expert / master. -/
inductive Difficulty where
  | easy
  | normal
  | hard
  | expert
  | master
deriving DecidableEq, Repr

/-- The `Note` class: one judgeable unit.  Fields are the instance
attributes set in `Note.__init__` (the mutable state included). -/
structure Note where
  id : Nat
  track_index : Int
  type : NoteType
  perfect_time : Int
  duration : Int
  hit : Bool
  held_time : Int
  judgement : Option JudgementResult
  start_hold_time : Option Int
  current_track : Int
deriving DecidableEq, Repr

/-- Construct a fresh note the way `Note.__init__` does (id supplied by
the caller, standing for the `Note._next_id` allocator). -/
def Note.mk' (id : Nat) (track_index : Int) (type : NoteType)
    (perfect_time : Int) (duration : Int) : Note :=
  { id := id
    track_index := track_index
    type := type
    perfect_time := perfect_time
    duration := duration
    hit := false
    held_time := 0
    judgement := none
    start_hold_time := none
    current_track := track_index }

/-- `Note.update(current_time, activated, current_track)`: records the
drag track when `current_track != -1`, and for a hit Hold note on an
activated track records `start_hold_time` on first contact and sets
`held_time = min(current_time - perfect_time, duration)`. -/
def Note.update (n : Note) (current_time : Int) (activated : Bool)
    (current_track : Int) : Note :=
  let n := if current_track ≠ -1 then { n with current_track := current_track } else n
  if n.type = NoteType.hold ∧ n.hit = true ∧ activated = true then
    let n := if n.start_hold_time = none
      then { n with start_hold_time := some current_time } else n
    { n with held_time := min (current_time - n.perfect_time) n.duration }
  else n

/-- `Note.is_complete(current_time)`: Normal/Drag are complete once hit or
past `perfect_time + 200`; Hold once (hit and `held_time ≥ duration`) or
past the same timeout. -/
def Note.is_complete (n : Note) (current_time : Int) : Bool :=
  match n.type with
  | NoteType.normal => n.hit || decide (current_time > n.perfect_time + 200)
  | NoteType.drag => n.hit || decide (current_time > n.perfect_time + 200)
  | NoteType.hold =>
      (n.hit && decide (n.held_time ≥ n.duration))
        || decide (current_time > n.perfect_time + 200)

/-- The `Track` class: per-lane activation state. -/
structure Track where
  index : Nat
  activated : Bool
  last_press_time : Int
  press_count : Nat
deriving DecidableEq, Repr

/-- `Track.press(current_time)`: no-op when already activated, else
activate, record the press time, bump `press_count`. -/
def Track.press (t : Track) (current_time : Int) : Track :=
  if t.activated then t
  else { t with activated := true, last_press_time := current_time,
                press_count := t.press_count + 1 }

/-- `Track.release()`: no-op when inactive, else deactivate. -/
def Track.release (t : Track) : Track :=
  if t.activated then { t with activated := false } else t

/-- Floor division for a positive divisor (`Int.ediv` rounds toward
negative infinity there), used to express the engine's exact truncations
and ceilings over the integers. -/
def floorDiv (a b : Int) : Int := Int.ediv a b

/-- Ceiling of the fraction `a / b` for a positive divisor `b`. -/
def ceilDiv (a b : Int) : Int := Int.ediv (a + b - 1) b

/-- Difficulty factors of `_adjust_windows_for_difficulty` (1.3, 1.0,
0.8, 0.6, 0.5), as exact fractions: the numerator over 10. -/
def difficultyFactorNum : Difficulty → Int
  | Difficulty.easy => 13
  | Difficulty.normal => 10
  | Difficulty.hard => 8
  | Difficulty.expert => 6
  | Difficulty.master => 5

/-- One adjusted window: `max(10, int(window * factor))`.  The float
product is nonnegative, so Python's truncating `int()` is the floor, and
for the window table 80/160/200 the IEEE-754 double product rounds to the
exact rational value's side of every integer, so the integer computation
below is exact. -/
def adjustedWindow (d : Difficulty) (w : Int) : Int :=
  max 10 (floorDiv (w * difficultyFactorNum d) 10)

/-- The `JudgementSystem` class.  The windows dictionary is a pure
function of the difficulty fixed at construction, so it is represented by
`JudgementSystem.window` below rather than stored. -/
structure JudgementSystem where
  difficulty : Difficulty
  judgement_counts : JudgementResult → Nat
  total_notes : Nat

/-- The adjusted judgement windows (`DEFAULT_JUDGEMENT_WINDOWS` scaled by
the difficulty factor, floored at 10ms).  Miss has no stored window. -/
def JudgementSystem.window (js : JudgementSystem) : JudgementResult → Int
  | JudgementResult.perfect => adjustedWindow js.difficulty 80
  | JudgementResult.good => adjustedWindow js.difficulty 160
  | JudgementResult.bad => adjustedWindow js.difficulty 200
  | JudgementResult.miss => 0

/-- `DEFAULT_JUDGEMENT_SCORES` (1.0, 0.65, 0.0, 0.0) as exact fractions:
the numerator over 20. -/
def judgementScoreWeightNum : JudgementResult → Int
  | JudgementResult.perfect => 20
  | JudgementResult.good => 13
  | JudgementResult.bad => 0
  | JudgementResult.miss => 0

/-- `JudgementSystem.MAX_SCORE`. -/
def JudgementSystem.MAX_SCORE : Int := 1000000

/-- `JudgementSystem.get_judgement(time_diff)`: tiered window comparison
on the (caller-supplied absolute) time difference. -/
def JudgementSystem.get_judgement (js : JudgementSystem) (time_diff : Int) :
    JudgementResult :=
  if time_diff ≤ js.window JudgementResult.perfect then JudgementResult.perfect
  else if time_diff ≤ js.window JudgementResult.good then JudgementResult.good
  else if time_diff ≤ js.window JudgementResult.bad then JudgementResult.bad
  else JudgementResult.miss

/-- `JudgementSystem.calculate_score(judgement)`: 0 when no notes, else
`ceil(MAX_SCORE / total_notes * weight)`.  (The `combo` argument of the
source is unused there.)  The argument of `math.ceil` is computed in
doubles, but for every weight and `total_notes` the double is never on
the wrong side of an integer, so the exact integer ceiling below agrees
with the source. -/
def JudgementSystem.calculate_score (js : JudgementSystem)
    (judgement : JudgementResult) : Int :=
  if js.total_notes = 0 then 0
  else ceilDiv (JudgementSystem.MAX_SCORE * judgementScoreWeightNum judgement)
    ((js.total_notes : Int) * 20)

/-- Increment one counter of the judgement statistics. -/
def bumpCount (c : JudgementResult → Nat) (r : JudgementResult) :
    JudgementResult → Nat :=
  fun x => if x = r then c x + 1 else c x

/-- The `GameState` class: the fields the judging pipeline reads or
writes.  `num_tracks` is the fixed constant 4. -/
structure GameState where
  difficulty : Difficulty
  score : Int
  combo : Nat
  max_combo : Nat
  judgement : Option JudgementResult
  current_time_ms : Int
  is_playing : Bool
  is_paused : Bool
  autoplay : Bool
  tracks : List Track
  notes : List Note
  chart_end_time_ms : Option Int
  judgement_system : JudgementSystem

/-- Apply `f` to the note(s) with the given id, in place (the Lean image
of mutating the aliased `Note` object). -/
def updateNoteList (notes : List Note) (noteId : Nat) (f : Note → Note) :
    List Note :=
  notes.map fun n => if n.id = noteId then f n else n

/-- Apply `f` to the track with the given index (the Lean image of
`self.tracks[i]` mutation; indices match list positions in every state
the engine builds, and a nonexistent index leaves the list unchanged). -/
def setTrackAt (ts : List Track) (i : Int) (f : Track → Track) : List Track :=
  ts.map fun t => if (t.index : Int) = i then f t else t

/-- `GameState.check_track_state(track_index)`: activation of the indexed
track, `False` out of range. -/
def GameState.check_track_state (s : GameState) (track_index : Int) : Bool :=
  if 0 ≤ track_index ∧ track_index < 4 then
    ((s.tracks.find? fun t => (t.index : Int) == track_index).map
      Track.activated).getD false
  else false

/-- Stable insertion of a note into a list sorted by `perfect_time`. -/
def insertByPT (n : Note) : List Note → List Note
  | [] => [n]
  | m :: ms =>
      if n.perfect_time < m.perfect_time then n :: m :: ms
      else m :: insertByPT n ms

/-- Stable sort by `perfect_time` (the image of Python's stable
`list.sort(key=perfect_time)`). -/
def sortByPT : List Note → List Note
  | [] => []
  | n :: ns => insertByPT n (sortByPT ns)

/-- `_update_notes_cache_impl`, derived: the per-track cache holds the
unhit notes with an in-range track index, sorted by `perfect_time`.  The
dirty flag of the source only delays recomputation; every read happens
after a rebuild, and the cache criteria (membership, `hit`, track) change
only through operations that set the flag, so the derived form is exact. -/
def GameState.notes_by_track (s : GameState) (track_index : Int) : List Note :=
  sortByPT (s.notes.filter fun n =>
    decide (n.track_index = track_index) && decide (0 ≤ n.track_index)
      && decide (n.track_index < 4) && !n.hit)

/-- First element of minimal time difference (the head of Python's stable
sort of `target_notes` by `time_diff`). -/
def pickClosest : List (Note × Int) → Option (Note × Int)
  | [] => none
  | x :: xs => some (xs.foldl (fun best y => if y.2 < best.2 then y else best) x)

/-- `GameState._judge_note(note, time_diff)`: classify, mark the note hit
with the result, apply score/combo effects (combo resets only on Miss),
bump the counter, record the last judgement. -/
def GameState.judge_note_impl (s : GameState) (noteId : Nat)
    (time_diff : Int) : GameState × JudgementResult :=
  let result := s.judgement_system.get_judgement time_diff
  let notes' := updateNoteList s.notes noteId
    (fun n => { n with hit := true, judgement := some result })
  let s := { s with notes := notes' }
  let s :=
    if result ≠ JudgementResult.miss then
      let gain := s.judgement_system.calculate_score result
      let newScore := min (s.score + gain) JudgementSystem.MAX_SCORE
      let newCombo := s.combo + 1
      { s with score := newScore, combo := newCombo,
               max_combo := max s.max_combo newCombo }
    else { s with combo := 0 }
  let s := { s with
    judgement_system := { s.judgement_system with
      judgement_counts := bumpCount s.judgement_system.judgement_counts result },
    judgement := some result }
  (s, result)

/-- `GameState._judge_miss(note)`: mark the note hit with Miss, reset the
combo, bump the Miss counter, record the last judgement. -/
def GameState.judge_miss (s : GameState) (noteId : Nat) : GameState :=
  { s with
    notes := updateNoteList s.notes noteId
      (fun n => { n with hit := true, judgement := some JudgementResult.miss }),
    combo := 0,
    judgement_system := { s.judgement_system with
      judgement_counts := bumpCount s.judgement_system.judgement_counts
        JudgementResult.miss },
    judgement := some JudgementResult.miss }

/-- One iteration of the early-release loop of `judge_note(action =
'release')`: a hit, not-yet-complete Hold note on the released track
whose judgement is not already Bad is forced to Bad (counter and last
judgement updated); otherwise nothing happens. -/
def releaseStep (track_index : Int) (s : GameState) (noteId : Nat) : GameState :=
  match s.notes.find? (fun n => n.id == noteId) with
  | none => s
  | some note =>
      if note.type = NoteType.hold ∧ note.track_index = track_index
          ∧ note.hit = true ∧ note.is_complete s.current_time_ms = false then
        if note.judgement ≠ some JudgementResult.bad then
          { s with
            notes := updateNoteList s.notes noteId
              (fun n => { n with judgement := some JudgementResult.bad }),
            judgement_system := { s.judgement_system with
              judgement_counts := bumpCount s.judgement_system.judgement_counts
                JudgementResult.bad },
            judgement := some JudgementResult.bad }
        else s
      else s

/-- The whole early-release loop (lines 763-778 of `judge_note`). -/
def GameState.release_forced_bad (s : GameState) (track_index : Int) :
    GameState :=
  (s.notes.map Note.id).foldl (releaseStep track_index) s

/-- The two user actions `judge_note` accepts (any other string returns
`None` without touching the state). -/
inductive JudgeAction where
  | press
  | release
deriving DecidableEq, Repr

/-- `GameState.judge_note(track_index, action)`: guard on playing/paused
and the track range; press or release the track (release first forcing
Bad on interrupted Hold notes); then classify the closest unhit non-Drag
cached note within 200ms, if any. -/
def GameState.judge_note (s : GameState) (track_index : Int) (action : JudgeAction) :
    GameState × Option JudgementResult :=
  if ¬s.is_playing = true ∨ s.is_paused = true then (s, none)
  else if track_index < 0 ∨ 4 ≤ track_index then (s, none)
  else
    let s :=
      match action with
      | JudgeAction.press =>
          let tracks' := setTrackAt s.tracks track_index
            (fun t => t.press s.current_time_ms)
          { s with tracks := tracks' }
      | JudgeAction.release =>
          let s := s.release_forced_bad track_index
          { s with tracks := setTrackAt s.tracks track_index Track.release }
    let track_notes := s.notes_by_track track_index
    let targets := (track_notes.filter fun n =>
        !n.hit && decide (n.type ≠ NoteType.drag)
          && decide (|s.current_time_ms - n.perfect_time| ≤ 200)).map
      fun n => (n, |s.current_time_ms - n.perfect_time|)
    match pickClosest targets with
    | none => (s, none)
    | some (note, d) =>
        let r := s.judge_note_impl note.id d
        (r.1, some r.2)

/-- `GameState._judge_perfect(note)`: judge with a recorded time
difference of 0. -/
def GameState.judge_perfect (s : GameState) (noteId : Nat) : GameState :=
  (s.judge_note_impl noteId 0).1

/-- One iteration of `_process_auto_miss`: an unhit note past
`perfect_time + 200` is forced to Miss. -/
def autoMissStep (s : GameState) (noteId : Nat) : GameState :=
  match s.notes.find? (fun n => n.id == noteId) with
  | none => s
  | some note =>
      if note.hit = false ∧ s.current_time_ms > note.perfect_time + 200 then
        s.judge_miss noteId
      else s

/-- `GameState._process_auto_miss`: the loop over a snapshot of the
active notes. -/
def GameState.process_auto_miss (s : GameState) : GameState :=
  (s.notes.map Note.id).foldl autoMissStep s

/-- One iteration of `_process_autoplay`: an unhit note within twice the
Perfect window is forced to Perfect with time difference 0 (a Drag note
first has its track synthetically activated); an already hit Hold note
still inside its duration gets its track activated and its held time
advanced. -/
def autoplayStep (s : GameState) (noteId : Nat) : GameState :=
  match s.notes.find? (fun n => n.id == noteId) with
  | none => s
  | some note =>
      if note.hit = false then
        let perfect_window := 2 * s.judgement_system.window JudgementResult.perfect
        if |s.current_time_ms - note.perfect_time| ≤ perfect_window then
          let s :=
            if note.type = NoteType.drag then
              let tracks' := setTrackAt s.tracks note.track_index
                (fun t => { t with activated := true })
              { s with tracks := tracks' }
            else s
          s.judge_perfect noteId
        else s
      else
        if note.type = NoteType.hold
            ∧ s.current_time_ms < note.perfect_time + note.duration then
          let tracks' := setTrackAt s.tracks note.track_index
            (fun t => { t with activated := true })
          let notes' := updateNoteList s.notes noteId
            (fun n => n.update s.current_time_ms true (-1))
          { s with tracks := tracks', notes := notes' }
        else s

/-- `GameState._process_autoplay`: the loop over a snapshot of the active
notes. -/
def GameState.process_autoplay (s : GameState) : GameState :=
  (s.notes.map Note.id).foldl autoplayStep s

/-- One iteration of the Drag rule of `update` (non-autoplay): an unhit
Drag note whose time difference has entered the 200ms window is judged at
once, Perfect when its track is activated and Miss otherwise. -/
def dragStep (s : GameState) (noteId : Nat) : GameState :=
  match s.notes.find? (fun n => n.id == noteId) with
  | none => s
  | some note =>
      if note.type = NoteType.drag ∧ note.hit = false then
        if |s.current_time_ms - note.perfect_time| ≤ 200 then
          if s.check_track_state note.track_index then s.judge_perfect noteId
          else s.judge_miss noteId
        else s
      else s

/-- The Drag special-judgement loop of `update`. -/
def GameState.drag_phase (s : GameState) : GameState :=
  (s.notes.map Note.id).foldl dragStep s

/-- The note update/eviction loop of `update`: every active note is
updated with its track's activation, then the notes satisfying
`is_complete` are removed. -/
def GameState.update_evict (s : GameState) : GameState :=
  let notes := s.notes.map fun n =>
    n.update s.current_time_ms (s.check_track_state n.track_index) (-1)
  { s with notes := notes.filter fun n => !n.is_complete s.current_time_ms }

/-- `GameState.stop_game()`: leave the PLAYING/PAUSED states (score and
statistics retained). -/
def GameState.stop_game (s : GameState) : GameState :=
  { s with is_playing := false, is_paused := false }

/-- One iteration of the end-marker loop of `_check_game_over`: an unhit
note at or before the end marker is forced to Miss. -/
def endMissStep (endTime : Int) (s : GameState) (noteId : Nat) : GameState :=
  match s.notes.find? (fun n => n.id == noteId) with
  | none => s
  | some note =>
      if note.hit = false ∧ note.perfect_time ≤ endTime then s.judge_miss noteId
      else s

/-- `GameState._check_game_over`: with an end marker reached, force-Miss
the unhit notes at or before it and stop; otherwise stop once the active
note set is empty. -/
def GameState.check_game_over (s : GameState) : GameState :=
  if s.is_playing = false then s
  else
    match s.chart_end_time_ms with
    | some endTime =>
        if s.current_time_ms ≥ endTime then
          let s := (s.notes.map Note.id).foldl (endMissStep endTime) s
          s.stop_game
        else if s.notes = [] then s.stop_game else s
    | none => if s.notes = [] then s.stop_game else s

/-- `GameState.update(delta_time_ms)`: no-op unless playing and not
paused; advance the clock (always from 0, otherwise only for positive
deltas); run the autoplay policy or else the auto-miss policy and the
Drag rule; update and evict notes; check for game over. -/
def GameState.update (s : GameState) (delta_time_ms : Int) : GameState :=
  if ¬s.is_playing = true ∨ s.is_paused = true then s
  else
    let s :=
      if s.current_time_ms = 0 ∨ delta_time_ms > 0 then
        { s with current_time_ms := s.current_time_ms + delta_time_ms }
      else s
    let s := if s.autoplay then s.process_autoplay else s.process_auto_miss
    let s := if s.autoplay then s else s.drag_phase
    let s := s.update_evict
    s.check_game_over

/-- `GameState.get_accuracy()`: 1.0 before any judgement, else the
weighted sum Perfect*1.0 + Good*0.65 + Bad*0.0 over the total of all
recorded judgements (Miss included in the total only). -/
def GameState.get_accuracy (s : GameState) : ℚ :=
  let c := s.judgement_system.judgement_counts
  let total : Nat := c JudgementResult.perfect + c JudgementResult.good
    + c JudgementResult.bad + c JudgementResult.miss
  if total = 0 then 1
  else ((c JudgementResult.perfect : ℚ) * 1
    + (c JudgementResult.good : ℚ) * (13 / 20)
    + (c JudgementResult.bad : ℚ) * 0) / (total : ℚ)

/-- The value a chart descriptor's `type` entry can carry: the engine
sees either a string or an integer there (`note_data.get('type', 0)`
defaults a missing entry to the integer 0). -/
inductive RawTypeVal where
  | str (v : String)
  | int (v : Int)
deriving DecidableEq, Repr

/-- Type resolution of `load_chart`: a valid enum string is taken as-is;
otherwise an integer in `0..2` indexes `list(NoteType)`, and anything
else falls back to Normal. -/
def resolveNoteType : RawTypeVal → NoteType
  | RawTypeVal.str v =>
      if v = "normal" then NoteType.normal
      else if v = "hold" then NoteType.hold
      else if v = "drag" then NoteType.drag
      else NoteType.normal
  | RawTypeVal.int v =>
      if v = 0 then NoteType.normal
      else if v = 1 then NoteType.hold
      else if v = 2 then NoteType.drag
      else NoteType.normal

/-- One chart note descriptor as `load_chart` reads it: `track_index` and
`perfect_time` are mandatory dictionary accesses (a missing one raises,
which the per-note handler turns into a logged warning and a skip),
`type` defaults to the integer 0 and `duration` to 0. -/
structure RawNote where
  track_index : Option Int
  type_val : Option RawTypeVal
  perfect_time : Option Int
  duration : Option Int
deriving DecidableEq, Repr

/-- The per-descriptor body of `load_chart`: `none` when the descriptor
is skipped (its `try` raised), otherwise the constructed `Note`.  No
validation of `track_index` happens here. -/
def loadNote (r : RawNote) (id : Nat) : Option Note :=
  match r.track_index, r.perfect_time with
  | some ti, some pt =>
      some (Note.mk' id ti (resolveNoteType (r.type_val.getD (RawTypeVal.int 0)))
        pt (r.duration.getD 0))
  | _, _ => none

/-- The accumulated score of a run of equal per-note gains, as
`_judge_note` accumulates it: each judgement applies
`score = min(score + gain, MAX_SCORE)`. -/
def clampedTotal (gain : Int) : Nat → Int
  | 0 => 0
  | k + 1 => min (clampedTotal gain k + gain) JudgementSystem.MAX_SCORE

/-- Four freshly constructed tracks, as `GameState.__init__` builds them. -/
def freshTracks : List Track :=
  [⟨0, false, 0, 0⟩, ⟨1, false, 0, 0⟩, ⟨2, false, 0, 0⟩, ⟨3, false, 0, 0⟩]

/-- A judgement system as freshly constructed: all counters zero. -/
def freshJS (d : Difficulty) (total_notes : Nat) : JudgementSystem :=
  { difficulty := d, judgement_counts := fun _ => 0, total_notes := total_notes }

/-- A playing game state on Normal difficulty: fresh tracks and counters,
zero score and combo, not paused, no autoplay, no end marker. -/
def playingState (notes : List Note) (t : Int) : GameState :=
  { difficulty := Difficulty.normal
    score := 0
    combo := 0
    max_combo := 0
    judgement := none
    current_time_ms := t
    is_playing := true
    is_paused := false
    autoplay := false
    tracks := freshTracks
    notes := notes
    chart_end_time_ms := none
    judgement_system := freshJS Difficulty.normal notes.length }

/-! ### Generic helper lemmas -/

/-- A projection left fixed by every step of a fold is fixed by the fold. -/
theorem foldl_fix {σ α β : Type _} (f : σ → α → σ) (g : σ → β)
    (h : ∀ s a, g (f s a) = g s) :
    ∀ (l : List α) (s : σ), g (l.foldl f s) = g s := by
  intro l
  induction l with
  | nil => intro s; rfl
  | cons a l ih => intro s; rw [List.foldl_cons, ih, h]

/-- Targeted note update keeps the id list. -/
theorem updateNoteList_map_id (l : List Note) (i : Nat) (f : Note → Note)
    (hf : ∀ n, (f n).id = n.id) :
    (updateNoteList l i f).map Note.id = l.map Note.id := by
  unfold updateNoteList
  rw [List.map_map]
  apply List.map_congr_left
  intro a _
  by_cases h : a.id = i
  · simp [h, hf]
  · simp [h]

/-- A note whose id is not targeted stays in the list untouched. -/
theorem mem_updateNoteList_of_ne {l : List Note} {m : Note} (hm : m ∈ l)
    (i : Nat) (f : Note → Note) (hne : m.id ≠ i) : m ∈ updateNoteList l i f := by
  unfold updateNoteList
  have h := List.mem_map_of_mem (fun n => if n.id = i then f n else n) hm
  simpa [hne] using h

/-- The targeted note's image is in the updated list. -/
theorem mem_updateNoteList_self {l : List Note} {m : Note} (hm : m ∈ l)
    (i : Nat) (f : Note → Note) (hid : m.id = i) : f m ∈ updateNoteList l i f := by
  unfold updateNoteList
  have h := List.mem_map_of_mem (fun n => if n.id = i then f n else n) hm
  simpa [hid] using h

/-- With pairwise distinct ids, `find?` by id returns the member itself. -/
theorem find_id_of_unique :
    ∀ (l : List Note) (n : Note), n ∈ l →
      (∀ m ∈ l, m.id = n.id → m = n) →
      l.find? (fun m => m.id == n.id) = some n := by
  intro l
  induction l with
  | nil => intro n h; cases h
  | cons a l ih =>
      intro n hmem huniq
      by_cases ha : a.id = n.id
      · have han : a = n := huniq a (List.mem_cons_self a l) ha
        rw [List.find?_cons_of_pos _ (by simpa using ha), han]
      · have hnl : n ∈ l := by
          rcases List.mem_cons.mp hmem with h | h
          · exact absurd (by rw [h]) ha
          · exact h
        rw [List.find?_cons_of_neg _ (by simpa using ha)]
        exact ih n hnl (fun m hm => huniq m (List.mem_cons_of_mem a hm))

/-- A nodup id list makes notes with equal ids equal. -/
theorem eq_of_mem_of_nodup_ids {l : List Note} (h : (l.map Note.id).Nodup)
    {m n : Note} (hm : m ∈ l) (hn : n ∈ l) (hid : m.id = n.id) : m = n :=
  List.inj_on_of_nodup_map h hm hn hid

/-- The Perfect window is at least 10ms at every difficulty. -/
theorem window_perfect_pos (js : JudgementSystem) :
    10 ≤ js.window JudgementResult.perfect :=
  le_max_left 10 _

/-- A time difference of 0 always classifies as Perfect. -/
theorem get_judgement_zero (js : JudgementSystem) :
    js.get_judgement 0 = JudgementResult.perfect := by
  unfold JudgementSystem.get_judgement
  rw [if_pos]
  exact le_trans (by norm_num) (window_perfect_pos js)

/-! ### Projection lemmas for the judging primitives -/

/-- The result of `_judge_note` is the classification of the time
difference. -/
theorem judge_note_impl_result (s : GameState) (i : Nat) (d : Int) :
    (s.judge_note_impl i d).2 = s.judgement_system.get_judgement d := by
  unfold GameState.judge_note_impl
  simp only []

/-- `_judge_note` only marks the target note hit with the result. -/
theorem judge_note_impl_notes (s : GameState) (i : Nat) (d : Int) :
    (s.judge_note_impl i d).1.notes
      = updateNoteList s.notes i (fun n =>
          { n with hit := true,
                   judgement := some (s.judgement_system.get_judgement d) }) := by
  unfold GameState.judge_note_impl
  simp only []
  all_goals first
  | rfl
  | (split <;> rfl)

/-- `_judge_note` leaves the tracks alone. -/
theorem judge_note_impl_tracks (s : GameState) (i : Nat) (d : Int) :
    (s.judge_note_impl i d).1.tracks = s.tracks := by
  unfold GameState.judge_note_impl
  simp only []
  all_goals first
  | rfl
  | (split <;> rfl)

/-- `_judge_note` leaves the clock alone. -/
theorem judge_note_impl_time (s : GameState) (i : Nat) (d : Int) :
    (s.judge_note_impl i d).1.current_time_ms = s.current_time_ms := by
  unfold GameState.judge_note_impl
  simp only []
  all_goals first
  | rfl
  | (split <;> rfl)

/-- `_judge_note` bumps exactly the counter of its result. -/
theorem judge_note_impl_counts (s : GameState) (i : Nat) (d : Int) :
    (s.judge_note_impl i d).1.judgement_system.judgement_counts
      = bumpCount s.judgement_system.judgement_counts
          (s.judgement_system.get_judgement d) := by
  unfold GameState.judge_note_impl
  simp only []
  all_goals first
  | rfl
  | (split <;> rfl)

/-- `_judge_note` keeps the difficulty and total of the judgement system. -/
theorem judge_note_impl_js (s : GameState) (i : Nat) (d : Int) :
    (s.judge_note_impl i d).1.judgement_system.difficulty
        = s.judgement_system.difficulty
      ∧ (s.judge_note_impl i d).1.judgement_system.total_notes
        = s.judgement_system.total_notes := by
  unfold GameState.judge_note_impl
  simp only []
  all_goals first
  | exact ⟨rfl, rfl⟩
  | (constructor <;> (split <;> rfl))

/-- The combo after `_judge_note`: reset on Miss, incremented otherwise. -/
theorem judge_note_impl_combo (s : GameState) (i : Nat) (d : Int) :
    (s.judge_note_impl i d).1.combo
      = if (s.judge_note_impl i d).2 = JudgementResult.miss then 0
        else s.combo + 1 := by
  rw [judge_note_impl_result]
  unfold GameState.judge_note_impl
  simp only []
  by_cases h : s.judgement_system.get_judgement d = JudgementResult.miss
  · simp [h]
  · simp [h]

/-- `_judge_miss` resets the combo. -/
theorem judge_miss_combo (s : GameState) (i : Nat) :
    (s.judge_miss i).combo = 0 := rfl

/-- `_judge_miss` bumps exactly the Miss counter. -/
theorem judge_miss_counts (s : GameState) (i : Nat) :
    (s.judge_miss i).judgement_system.judgement_counts
      = bumpCount s.judgement_system.judgement_counts JudgementResult.miss := rfl

/-- `_judge_miss` only marks the target note hit with Miss. -/
theorem judge_miss_notes (s : GameState) (i : Nat) :
    (s.judge_miss i).notes
      = updateNoteList s.notes i (fun n =>
          { n with hit := true, judgement := some JudgementResult.miss }) := rfl

/-- `_judge_miss` leaves tracks and clock alone. -/
theorem judge_miss_tracks (s : GameState) (i : Nat) :
    (s.judge_miss i).tracks = s.tracks := rfl

theorem judge_miss_time (s : GameState) (i : Nat) :
    (s.judge_miss i).current_time_ms = s.current_time_ms := rfl

/-- Bumping one counter leaves the others unchanged. -/
theorem bumpCount_ne (c : JudgementResult → Nat) {r x : JudgementResult}
    (h : x ≠ r) : bumpCount c r x = c x := by
  unfold bumpCount
  simp [h]

theorem bumpCount_self (c : JudgementResult → Nat) (r : JudgementResult) :
    bumpCount c r r = c r + 1 := by
  unfold bumpCount
  simp

/-! ### Claim C5: Note.update and held_time -/

/-- C5: `Note.update` advances `held_time` exactly when the note is a hit
Hold note on an activated track, setting it to
`min(current_time - perfect_time, duration)`; hence `held_time` never
exceeds `duration`; the update never changes the judgement, and a hit
Hold note with `held_time ≥ duration` is complete. -/
theorem note_update_held_time_spec (n : Note) (t : Int) (act : Bool) (tr : Int) :
    ((n.update t act tr).held_time
        = if n.type = NoteType.hold ∧ n.hit = true ∧ act = true
          then min (t - n.perfect_time) n.duration else n.held_time)
    ∧ (n.held_time ≤ n.duration → (n.update t act tr).held_time ≤ n.duration)
    ∧ (n.update t act tr).judgement = n.judgement
    ∧ (n.type = NoteType.hold → n.hit = true → n.duration ≤ n.held_time →
        n.is_complete t = true) := by
  have hupd : (n.update t act tr).held_time
      = if n.type = NoteType.hold ∧ n.hit = true ∧ act = true
        then min (t - n.perfect_time) n.duration else n.held_time := by
    unfold Note.update
    by_cases htr : tr ≠ -1 <;> simp only [htr, if_true, if_false, ite_true,
      ite_false, reduceIte] <;> split_ifs <;> simp_all
  refine ⟨hupd, ?_, ?_, ?_⟩
  · intro hle
    rw [hupd]
    split
    · exact min_le_right _ _
    · exact hle
  · unfold Note.update
    by_cases htr : tr ≠ -1 <;> simp only [htr, reduceIte, ite_true,
      ite_false] <;> split_ifs <;> simp_all
  · intro htype hhit hheld
    unfold Note.is_complete
    rw [htype]
    simp [hhit, hheld]

/-- Witness for C5: scenario 3's Hold note (perfect_time 2000ms, duration
1000ms), hit and held, updated at t = 3015ms: held_time clamps to the
duration, judgement is retained, and the note counts as complete. -/
theorem note_update_held_time_spec_witness :
    (((Note.mk' 0 1 NoteType.hold 2000 1000).update 3015 true (-1)).held_time
        = if (Note.mk' 0 1 NoteType.hold 2000 1000).type = NoteType.hold
            ∧ (Note.mk' 0 1 NoteType.hold 2000 1000).hit = true ∧ true = true
          then min ((3015 : Int) - 2000) 1000
          else (Note.mk' 0 1 NoteType.hold 2000 1000).held_time)
    ∧ ((Note.mk' 0 1 NoteType.hold 2000 1000).held_time
          ≤ (Note.mk' 0 1 NoteType.hold 2000 1000).duration →
        ((Note.mk' 0 1 NoteType.hold 2000 1000).update 3015 true (-1)).held_time
          ≤ (Note.mk' 0 1 NoteType.hold 2000 1000).duration)
    ∧ (({ Note.mk' 0 1 NoteType.hold 2000 1000 with
          hit := true, judgement := some JudgementResult.perfect,
          held_time := 1000 } : Note).update 3015 true (-1)).judgement
        = some JudgementResult.perfect
    ∧ ({ Note.mk' 0 1 NoteType.hold 2000 1000 with
          hit := true, judgement := some JudgementResult.perfect,
          held_time := 1000 } : Note).is_complete 3015 = true := by
  refine ⟨?_, ?_, ?_, ?_⟩
  · exact (note_update_held_time_spec (Note.mk' 0 1 NoteType.hold 2000 1000)
      3015 true (-1)).1
  · exact (note_update_held_time_spec (Note.mk' 0 1 NoteType.hold 2000 1000)
      3015 true (-1)).2.1
  · exact (note_update_held_time_spec
      { Note.mk' 0 1 NoteType.hold 2000 1000 with
        hit := true, judgement := some JudgementResult.perfect,
        held_time := 1000 } 3015 true (-1)).2.2.1
  · exact (note_update_held_time_spec
      { Note.mk' 0 1 NoteType.hold 2000 1000 with
        hit := true, judgement := some JudgementResult.perfect,
        held_time := 1000 } 3015 true (-1)).2.2.2 rfl rfl (by decide)

/-! ### Claim C10: get_accuracy -/

/-- C10: `get_accuracy` is exactly 1 before any judgement is recorded;
otherwise it is (Perfect + 0.65·Good) divided by the total of all four
recorded judgement counters, so Bad and Miss contribute nothing to the
numerator while still enlarging the denominator. -/
theorem get_accuracy_spec (s : GameState) :
    s.get_accuracy =
      if s.judgement_system.judgement_counts JudgementResult.perfect
          + s.judgement_system.judgement_counts JudgementResult.good
          + s.judgement_system.judgement_counts JudgementResult.bad
          + s.judgement_system.judgement_counts JudgementResult.miss = 0 then 1
      else ((s.judgement_system.judgement_counts JudgementResult.perfect : ℚ)
          + (13 / 20) * (s.judgement_system.judgement_counts JudgementResult.good : ℚ))
          / ((s.judgement_system.judgement_counts JudgementResult.perfect : ℚ)
            + (s.judgement_system.judgement_counts JudgementResult.good : ℚ)
            + (s.judgement_system.judgement_counts JudgementResult.bad : ℚ)
            + (s.judgement_system.judgement_counts JudgementResult.miss : ℚ)) := by
  unfold GameState.get_accuracy
  simp only []
  split
  · rfl
  · congr 1
    · ring
    · push_cast
      ring

/-! ### Claim C8: flawless-run score -/

/-- Two-sided bound on the ceiling division for a positive divisor. -/
theorem ceilDiv_bounds (a b : Int) (hb : 0 < b) :
    a ≤ b * ceilDiv a b ∧ b * ceilDiv a b ≤ a + b - 1 := by
  have hdef : ceilDiv a b = (a + b - 1) / b := rfl
  rw [hdef]
  have h1 := Int.ediv_add_emod (a + b - 1) b
  have h2 := Int.emod_nonneg (a + b - 1) (ne_of_gt hb)
  have h3 := Int.emod_lt_of_pos (a + b - 1) hb
  constructor <;> linarith

/-- The clamped accumulation of a fixed nonnegative gain is the clamped
multiple. -/
theorem clampedTotal_eq_min (g : Int) (hg : 0 ≤ g) :
    ∀ k : Nat, clampedTotal g k = min ((k : Int) * g) JudgementSystem.MAX_SCORE := by
  intro k
  induction k with
  | zero => simp [clampedTotal, JudgementSystem.MAX_SCORE]
  | succ k ih =>
      rw [clampedTotal, ih]
      rcases le_total ((k : Int) * g) JudgementSystem.MAX_SCORE with h | h
      · rw [min_eq_left h]
        congr 1
        push_cast
        ring
      · rw [min_eq_right h, min_eq_right (by linarith), min_eq_right]
        push_cast
        nlinarith

/-- C8: for every judgement system with at least one note, the Perfect
gain summed over all notes is at least MAX_SCORE and exceeds it by at
most total_notes - 1, and accumulating it note by note through the
clamped score update of `_judge_note` ends exactly at MAX_SCORE. -/
theorem flawless_run_score (js : JudgementSystem) (h : 1 ≤ js.total_notes) :
    JudgementSystem.MAX_SCORE
        ≤ (js.total_notes : Int) * js.calculate_score JudgementResult.perfect
    ∧ (js.total_notes : Int) * js.calculate_score JudgementResult.perfect
        ≤ JudgementSystem.MAX_SCORE + js.total_notes - 1
    ∧ clampedTotal (js.calculate_score JudgementResult.perfect) js.total_notes
        = JudgementSystem.MAX_SCORE := by
  have hn0 : js.total_notes ≠ 0 := by omega
  set n : Int := (js.total_notes : Int) with hn
  have hnpos : 0 < n := by
    rw [hn]
    exact_mod_cast Nat.pos_of_ne_zero hn0
  have hg : js.calculate_score JudgementResult.perfect
      = ceilDiv (JudgementSystem.MAX_SCORE * 20) (n * 20) := by
    unfold JudgementSystem.calculate_score
    rw [if_neg hn0]
    rfl
  set g : Int := js.calculate_score JudgementResult.perfect with hgdef
  have hb : (0 : Int) < n * 20 := by positivity
  have hbounds := ceilDiv_bounds (JudgementSystem.MAX_SCORE * 20) (n * 20) hb
  rw [← hg] at hbounds
  have hlow : JudgementSystem.MAX_SCORE ≤ n * g := by
    have h1 := hbounds.1
    have h2 : (n * 20) * g = 20 * (n * g) := by ring
    rw [h2] at h1
    linarith
  have hhigh : n * g ≤ JudgementSystem.MAX_SCORE + n - 1 := by
    have h1 := hbounds.2
    have h2 : (n * 20) * g = 20 * (n * g) := by ring
    rw [h2] at h1
    have h3 : 20 * (n * g) ≤ 20 * (JudgementSystem.MAX_SCORE + n) - 1 := by
      linarith
    linarith
  have hgpos : 0 ≤ g := by
    by_contra hneg
    push_neg at hneg
    have : n * g < 0 := mul_neg_of_pos_of_neg hnpos hneg
    have : (0 : Int) < JudgementSystem.MAX_SCORE := by
      unfold JudgementSystem.MAX_SCORE
      norm_num
    linarith
  refine ⟨hlow, hhigh, ?_⟩
  rw [clampedTotal_eq_min g hgpos js.total_notes, ← hn, min_eq_right hlow]

/-- Witness for C8: a 3-note chart on Normal difficulty. -/
theorem flawless_run_score_witness :
    JudgementSystem.MAX_SCORE
        ≤ ((freshJS Difficulty.normal 3).total_notes : Int)
          * (freshJS Difficulty.normal 3).calculate_score JudgementResult.perfect
    ∧ ((freshJS Difficulty.normal 3).total_notes : Int)
          * (freshJS Difficulty.normal 3).calculate_score JudgementResult.perfect
        ≤ JudgementSystem.MAX_SCORE + (freshJS Difficulty.normal 3).total_notes - 1
    ∧ clampedTotal
          ((freshJS Difficulty.normal 3).calculate_score JudgementResult.perfect)
          (freshJS Difficulty.normal 3).total_notes
        = JudgementSystem.MAX_SCORE :=
  flawless_run_score (freshJS Difficulty.normal 3) (by decide)

/-! ### Claim C1: scenario 1 -/

/-- The chart of scenario 1: one Normal note, track 0, perfect_time
1000ms. -/
def noteC1 : Note := Note.mk' 0 0 NoteType.normal 1000 0

/-- The playing state of scenario 1 at t = 1005ms (total_notes = 1). -/
def stateC1 : GameState := playingState [noteC1] 1005

/-- C1: with a single Normal note on track 0 at perfect_time 1000ms and
total_notes 1, playing and unpaused, `judge_note(0, 'press')` at
t = 1005ms returns Perfect, sets the score to 1,000,000 and the combo
to 1. -/
theorem judge_press_scenario1 :
    (stateC1.judge_note 0 JudgeAction.press).2 = some JudgementResult.perfect
    ∧ (stateC1.judge_note 0 JudgeAction.press).1.score = 1000000
    ∧ (stateC1.judge_note 0 JudgeAction.press).1.combo = 1 := by
  decide

/-! ### Claim C2: combo reset -/

/-- A hit Hold note (judged Perfect at 2010ms) on track 1, not yet
complete at 2100ms. -/
def noteC2 : Note :=
  { Note.mk' 0 1 NoteType.hold 2000 1000 with
      hit := true, judgement := some JudgementResult.perfect, held_time := 100 }

/-- A playing state holding `noteC2` at t = 2100ms with a running combo
of 3. -/
def stateC2 : GameState := { playingState [noteC2] 2100 with combo := 3 }

/-- Counterexample to C2: releasing track 1 forces the Bad (the Bad
counter goes from 0 to 1) yet leaves the combo at 3 instead of resetting
it to 0. -/
theorem release_forced_bad_keeps_combo_cex :
    noteC2.type = NoteType.hold ∧ noteC2.hit = true
    ∧ noteC2.is_complete stateC2.current_time_ms = false
    ∧ stateC2.judgement_system.judgement_counts JudgementResult.bad = 0
    ∧ (stateC2.judge_note 1 JudgeAction.release).1.judgement_system.judgement_counts
        JudgementResult.bad = 1
    ∧ stateC2.combo = 3
    ∧ (stateC2.judge_note 1 JudgeAction.release).1.combo = 3 := by
  decide

/-- C2 as amended: every operation that records a Miss resets the combo
to 0 (`_judge_miss` always, `_judge_note` exactly when its result is
Miss), but the forced Bad of the early-release loop leaves the combo
unchanged. -/
theorem combo_reset_amended (s : GameState) (i : Nat) (d : Int) (tr : Int) :
    (s.judge_miss i).combo = 0
    ∧ ((s.judge_note_impl i d).1.combo
        = if (s.judge_note_impl i d).2 = JudgementResult.miss then 0
          else s.combo + 1)
    ∧ (s.release_forced_bad tr).combo = s.combo := by
  refine ⟨judge_miss_combo s i, judge_note_impl_combo s i d, ?_⟩
  unfold GameState.release_forced_bad
  apply foldl_fix
  intro s' a
  unfold releaseStep
  cases h : s'.notes.find? (fun n => n.id == a) with
  | none => rfl
  | some note =>
      simp only []
      split
      · split
        · rfl
        · rfl
      · rfl

/-! ### Claim C3: autoplay and Miss -/

/-- A chart with one Normal note at 1000ms and an end marker at 1000ms,
playing under autoplay from t = 0. -/
def stateC3 : GameState :=
  { playingState [Note.mk' 0 0 NoteType.normal 1000 0] 0 with
      autoplay := true, chart_end_time_ms := some 1000 }

/-- Counterexample to C3: under autoplay, one tick of 1180ms jumps the
clock past the end marker while the note (offset 180ms) is outside the
doubled Perfect window, and the end-marker sweep of `_check_game_over`
records a Miss: the Miss counter rises from 0 to 1. -/
theorem autoplay_miss_cex :
    stateC3.autoplay = true
    ∧ stateC3.judgement_system.judgement_counts JudgementResult.miss = 0
    ∧ (stateC3.update 1180).judgement_system.judgement_counts
        JudgementResult.miss = 1 := by
  decide

/-- C3 as amended: the autoplay judging policy itself never records a
Miss, a Good or a Bad — every note it judges is judged with a recorded
time difference of 0 and classifies as Perfect — though the end-marker
sweep outside the policy can still record Misses. -/
theorem autoplay_policy_only_perfect (s : GameState) :
    s.process_autoplay.judgement_system.judgement_counts JudgementResult.miss
        = s.judgement_system.judgement_counts JudgementResult.miss
    ∧ s.process_autoplay.judgement_system.judgement_counts JudgementResult.good
        = s.judgement_system.judgement_counts JudgementResult.good
    ∧ s.process_autoplay.judgement_system.judgement_counts JudgementResult.bad
        = s.judgement_system.judgement_counts JudgementResult.bad := by
  have step : ∀ (r : JudgementResult), r ≠ JudgementResult.perfect →
      ∀ (s' : GameState) (a : Nat),
      (autoplayStep s' a).judgement_system.judgement_counts r
        = s'.judgement_system.judgement_counts r := by
    intro r hr s' a
    unfold autoplayStep
    cases h : s'.notes.find? (fun n => n.id == a) with
    | none => rfl
    | some note =>
        simp only []
        split
        · split
          · unfold GameState.judge_perfect
            rw [judge_note_impl_counts]
            split
            · rw [get_judgement_zero, bumpCount_ne _ hr]
            · rw [get_judgement_zero, bumpCount_ne _ hr]
          · rfl
        · split
          · rfl
          · rfl
  unfold GameState.process_autoplay
  refine ⟨?_, ?_, ?_⟩
  · exact foldl_fix autoplayStep
      (fun s' => s'.judgement_system.judgement_counts JudgementResult.miss)
      (step JudgementResult.miss (by decide)) _ s
  · exact foldl_fix autoplayStep
      (fun s' => s'.judgement_system.judgement_counts JudgementResult.good)
      (step JudgementResult.good (by decide)) _ s
  · exact foldl_fix autoplayStep
      (fun s' => s'.judgement_system.judgement_counts JudgementResult.bad)
      (step JudgementResult.bad (by decide)) _ s

/-! ### Claim C9: clock monotonicity across update -/

/-- The autoplay policy never moves the clock. -/
theorem autoplayStep_time (s : GameState) (a : Nat) :
    (autoplayStep s a).current_time_ms = s.current_time_ms := by
  unfold autoplayStep
  cases h : s.notes.find? (fun n => n.id == a) with
  | none => rfl
  | some note =>
      simp only []
      split
      · split
        · unfold GameState.judge_perfect
          rw [judge_note_impl_time]
          split <;> rfl
        · rfl
      · split <;> rfl

/-- The auto-miss policy never moves the clock. -/
theorem autoMissStep_time (s : GameState) (a : Nat) :
    (autoMissStep s a).current_time_ms = s.current_time_ms := by
  unfold autoMissStep
  cases h : s.notes.find? (fun n => n.id == a) with
  | none => rfl
  | some note =>
      simp only []
      split
      · rw [judge_miss_time]
      · rfl

/-- The Drag rule never moves the clock. -/
theorem dragStep_time (s : GameState) (a : Nat) :
    (dragStep s a).current_time_ms = s.current_time_ms := by
  unfold dragStep
  cases h : s.notes.find? (fun n => n.id == a) with
  | none => rfl
  | some note =>
      simp only []
      split
      · split
        · split
          · unfold GameState.judge_perfect
            rw [judge_note_impl_time]
          · rw [judge_miss_time]
        · rfl
      · rfl

/-- The end-marker sweep never moves the clock. -/
theorem endMissStep_time (e : Int) (s : GameState) (a : Nat) :
    (endMissStep e s a).current_time_ms = s.current_time_ms := by
  unfold endMissStep
  cases h : s.notes.find? (fun n => n.id == a) with
  | none => rfl
  | some note =>
      simp only []
      split
      · rw [judge_miss_time]
      · rfl

/-- `_check_game_over` never moves the clock. -/
theorem check_game_over_time (s : GameState) :
    s.check_game_over.current_time_ms = s.current_time_ms := by
  unfold GameState.check_game_over
  split
  · rfl
  · split
    · split
      · exact foldl_fix (endMissStep _) (fun s' => s'.current_time_ms)
          (fun s' a => endMissStep_time _ s' a) _ s
      · split <;> rfl
    · split <;> rfl

/-- The eviction pass never moves the clock. -/
theorem update_evict_time (s : GameState) :
    s.update_evict.current_time_ms = s.current_time_ms := rfl

/-- The clock after one `update` call: unchanged when not playing or
paused; advanced by the delta when the clock is 0 or the delta positive;
otherwise unchanged. -/
theorem update_time (s : GameState) (d : Int) :
    (s.update d).current_time_ms =
      if ¬s.is_playing = true ∨ s.is_paused = true then s.current_time_ms
      else if s.current_time_ms = 0 ∨ d > 0 then s.current_time_ms + d
      else s.current_time_ms := by
  have hpipe : ∀ s' : GameState,
      ((if s'.autoplay = true then s'.process_autoplay
        else s'.process_auto_miss).current_time_ms) = s'.current_time_ms := by
    intro s'
    split
    · exact foldl_fix autoplayStep (fun x => x.current_time_ms)
        autoplayStep_time _ s'
    · exact foldl_fix autoMissStep (fun x => x.current_time_ms)
        autoMissStep_time _ s'
  have hdrag : ∀ s' : GameState,
      ((if s'.autoplay = true then s' else s'.drag_phase).current_time_ms)
        = s'.current_time_ms := by
    intro s'
    split
    · rfl
    · exact foldl_fix dragStep (fun x => x.current_time_ms)
        dragStep_time _ s'
  unfold GameState.update
  split
  · rfl
  · simp only []
    rw [check_game_over_time, update_evict_time, hdrag, hpipe]
    split <;> rfl

/-- A playing state with one pending Normal note at 10000ms, clock at 0. -/
def stateC9 : GameState := playingState [Note.mk' 0 0 NoteType.normal 10000 0] 0

/-- Counterexample to C9: while playing and unpaused, an `update` with a
negative delta at clock 0 moves the clock backwards, from 0 to -1. -/
theorem update_time_decrease_cex :
    stateC9.is_playing = true ∧ stateC9.is_paused = false
    ∧ stateC9.current_time_ms = 0
    ∧ (stateC9.update (-1)).current_time_ms < stateC9.current_time_ms := by
  decide

/-- C9 as amended: while playing and unpaused, `update(delta_time_ms)`
never decreases `current_time_ms` provided the delta is nonnegative or
the clock has left 0; only a negative delta applied at clock 0 (the one
tick that is always accumulated) can decrease it. -/
theorem update_time_nondecreasing (s : GameState) (d : Int)
    (hplay : s.is_playing = true) (hpause : s.is_paused = false)
    (h : 0 ≤ d ∨ s.current_time_ms ≠ 0) :
    s.current_time_ms ≤ (s.update d).current_time_ms := by
  rw [update_time]
  rw [if_neg (by simp [hplay, hpause])]
  split
  · rename_i hcond
    have hd : (0 : Int) ≤ d := by
      rcases hcond with h0 | hdpos
      · rcases h with hd' | hne
        · exact hd'
        · exact absurd h0 hne
      · linarith
    linarith
  · exact le_refl _

/-- Witness for C9: a positive delta from the same state advances the
clock. -/
theorem update_time_nondecreasing_witness :
    stateC9.current_time_ms ≤ (stateC9.update 5).current_time_ms :=
  update_time_nondecreasing stateC9 5 (by decide) (by decide)
    (Or.inl (by decide))

/-! ### Claim C7: malformed chart descriptors -/

/-- A descriptor with an out-of-range track index (9) and an unknown
type string. -/
def rawC7 : RawNote :=
  { track_index := some 9, type_val := some (RawTypeVal.str "mystery"),
    perfect_time := some 100, duration := none }

/-- Counterexample to C7: the malformed descriptor `rawC7` is not
skipped: `load_chart` constructs a Note from it, keeping the invalid
track index 9 and falling back to the Normal type. -/
theorem load_invalid_track_not_skipped_cex :
    (loadNote rawC7 0).isSome = true
    ∧ (loadNote rawC7 0).map Note.track_index = some 9
    ∧ (loadNote rawC7 0).map Note.type = some NoteType.normal := by
  decide

/-- C7 as amended: at load time a descriptor is skipped exactly when it
is missing `track_index` or `perfect_time` (the accesses that raise and
hit the per-note warning handler); an unknown type — any string other
than the three known ones, or any integer outside 0..2 — falls back to
Normal rather than being skipped, and an out-of-range track index is
accepted as-is, though such a note never enters the per-track cache. -/
theorem load_note_skip_iff (r : RawNote) (id : Nat) (v : String) (k : Int)
    (s : GameState) (tr : Int) (n : Note) :
    (loadNote r id = none ↔ r.track_index = none ∨ r.perfect_time = none)
    ∧ (v ≠ "normal" → v ≠ "hold" → v ≠ "drag" →
        resolveNoteType (RawTypeVal.str v) = NoteType.normal)
    ∧ ((k < 0 ∨ 2 < k) → resolveNoteType (RawTypeVal.int k) = NoteType.normal)
    ∧ (n ∈ s.notes_by_track tr → 0 ≤ n.track_index ∧ n.track_index < 4) := by
  refine ⟨?_, ?_, ?_, ?_⟩
  · unfold loadNote
    cases hti : r.track_index with
    | none => simp
    | some ti =>
        cases hpt : r.perfect_time with
        | none => simp
        | some pt => simp
  · intro h1 h2 h3
    unfold resolveNoteType
    simp [h1, h2, h3]
  · intro hk
    unfold resolveNoteType
    have h0 : k ≠ 0 := by omega
    have h1 : k ≠ 1 := by omega
    have h2 : k ≠ 2 := by omega
    simp [h0, h1, h2]
  · intro hmem
    unfold GameState.notes_by_track at hmem
    have hmem' : n ∈ s.notes.filter fun m =>
        decide (m.track_index = tr) && decide (0 ≤ m.track_index)
          && decide (m.track_index < 4) && !m.hit := by
      have hperm : ∀ (l : List Note), n ∈ sortByPT l → n ∈ l := by
        intro l
        induction l with
        | nil => intro h; exact h
        | cons a l ih =>
            intro h
            have hins : ∀ (x : Note) (xs : List Note), n ∈ insertByPT x xs →
                n = x ∨ n ∈ xs := by
              intro x xs
              induction xs with
              | nil => intro h'; simpa [insertByPT] using h'
              | cons b xs ihb =>
                  intro h'
                  unfold insertByPT at h'
                  split at h'
                  · rcases List.mem_cons.mp h' with h'' | h''
                    · exact Or.inl h''
                    · exact Or.inr h''
                  · rcases List.mem_cons.mp h' with h'' | h''
                    · exact Or.inr (by rw [h'']; exact List.mem_cons_self b xs)
                    · rcases ihb h'' with h3 | h3
                      · exact Or.inl h3
                      · exact Or.inr (List.mem_cons_of_mem b h3)
            unfold sortByPT at h
            rcases hins a (sortByPT l) h with h' | h'
            · rw [h']
              exact List.mem_cons_self a l
            · exact List.mem_cons_of_mem a (ih h')
      exact hperm _ hmem
    have hp := List.of_mem_filter hmem'
    simp only [Bool.and_eq_true, decide_eq_true_eq] at hp
    exact ⟨hp.1.1.2, hp.1.2⟩

/-- A descriptor with no `track_index` (its dictionary access raises). -/
def rawC7b : RawNote :=
  { track_index := none, type_val := some (RawTypeVal.int 1),
    perfect_time := some 100, duration := none }

/-- A valid Normal note on track 3 and a state holding it, for the cache
clause of the C7 witness. -/
def noteC7 : Note := Note.mk' 0 3 NoteType.normal 500 0

def stateC7 : GameState := playingState [noteC7] 400

/-- Witness for C7: the skip-iff at a descriptor missing `track_index`,
the type fallbacks at "x" and 5, and the cache-range clause at a concrete
cached note. -/
theorem load_note_skip_iff_witness :
    (loadNote rawC7b 0 = none ↔ rawC7b.track_index = none
      ∨ rawC7b.perfect_time = none)
    ∧ resolveNoteType (RawTypeVal.str "x") = NoteType.normal
    ∧ resolveNoteType (RawTypeVal.int 5) = NoteType.normal
    ∧ (0 ≤ noteC7.track_index ∧ noteC7.track_index < 4) := by
  have h := load_note_skip_iff rawC7b 0 "x" 5 stateC7 3 noteC7
  exact ⟨h.1, h.2.1 (by decide) (by decide) (by decide),
    h.2.2.1 (Or.inr (by decide)), h.2.2.2 (by decide)⟩

/-! ### Claim C6: early release of a hit Hold note -/

/-- The condition under which the release loop of `judge_note` targets a
note: a Hold note on the released track, hit but not yet complete. -/
def releaseBadTarget (track_index t : Int) (n : Note) : Prop :=
  n.type = NoteType.hold ∧ n.track_index = track_index ∧ n.hit = true
    ∧ n.is_complete t = false

instance (track_index t : Int) (n : Note) :
    Decidable (releaseBadTarget track_index t n) := by
  unfold releaseBadTarget
  infer_instance

/-- One release step keeps the id list. -/
theorem releaseStep_ids (tr : Int) (s : GameState) (i : Nat) :
    (releaseStep tr s i).notes.map Note.id = s.notes.map Note.id := by
  unfold releaseStep
  cases hf : s.notes.find? (fun n => n.id == i) with
  | none => rfl
  | some note =>
      simp only []
      split
      · split
        · exact updateNoteList_map_id s.notes i _ (fun n => rfl)
        · rfl
      · rfl

/-- One release step keeps the clock. -/
theorem releaseStep_time (tr : Int) (s : GameState) (i : Nat) :
    (releaseStep tr s i).current_time_ms = s.current_time_ms := by
  unfold releaseStep
  cases hf : s.notes.find? (fun n => n.id == i) with
  | none => rfl
  | some note =>
      simp only []
      split
      · split <;> rfl
      · rfl

/-- Counting helper: when two Boolean predicates agree on every note
whose id differs from that of a member `m`, and `q` holds at `m` while
`p` fails there, `q` counts exactly one more than `p`. -/
theorem countP_split_at :
    ∀ (xs : List Note), (xs.map Note.id).Nodup →
      ∀ (m : Note), m ∈ xs → ∀ (p q : Note → Bool), p m = false → q m = true →
      (∀ x ∈ xs, x.id ≠ m.id → p x = q x) →
      xs.countP q = xs.countP p + 1 := by
  intro xs
  induction xs with
  | nil => intro _ m hm; cases hm
  | cons a xs ih =>
      intro hnd m hm p q hpm hqm hoth
      rw [List.map_cons] at hnd
      have hhead : a.id ∉ xs.map Note.id := (List.nodup_cons.mp hnd).1
      have hnd' : (xs.map Note.id).Nodup := (List.nodup_cons.mp hnd).2
      by_cases hid : a.id = m.id
      · have ham : a = m := by
          rcases List.mem_cons.mp hm with h | h
          · exact h.symm
          · exfalso
            have hin : m.id ∈ xs.map Note.id := List.mem_map_of_mem Note.id h
            rw [hid] at hhead
            exact hhead hin
        subst ham
        rw [List.countP_cons, List.countP_cons, hpm, hqm]
        simp only [if_pos rfl, if_neg (by decide : ¬(false = true)), if_true]
        have heq : xs.countP p = xs.countP q := by
          apply List.countP_congr
          intro x hx
          have hxid : x.id ≠ a.id := by
            intro hxe
            apply hhead
            rw [← hxe]
            exact List.mem_map_of_mem Note.id hx
          rw [hoth x (List.mem_cons_of_mem a hx) hxid]
        omega
      · have hm' : m ∈ xs := by
          rcases List.mem_cons.mp hm with h | h
          · exact absurd (by rw [h]) hid
          · exact h
        have hstep := ih hnd' m hm' p q hpm hqm
          (fun x hx hxid => hoth x (List.mem_cons_of_mem a hx) hxid)
        have hhead_eq : p a = q a := hoth a (List.mem_cons_self a xs) hid
        rw [List.countP_cons, List.countP_cons, hstep, hhead_eq]
        omega

/-- The counting predicate for the release loop: a listed id, a release
target, not yet judged Bad. -/
def relCountPred (l : List Nat) (tr t : Int) (n : Note) : Bool :=
  decide (n.id ∈ l) && decide (releaseBadTarget tr t n)
    && decide (n.judgement ≠ some JudgementResult.bad)

/-- The Bad counter after the release loop run over a nodup id list: one
increment per listed target note not already judged Bad. -/
theorem release_fold_bad_count (tr : Int) :
    ∀ (l : List Nat) (s : GameState),
      (s.notes.map Note.id).Nodup → l.Nodup →
      (l.foldl (releaseStep tr) s).judgement_system.judgement_counts
          JudgementResult.bad
        = s.judgement_system.judgement_counts JudgementResult.bad
          + s.notes.countP (relCountPred l tr s.current_time_ms) := by
  intro l
  induction l with
  | nil =>
      intro s hnd _
      have h0 : s.notes.countP (relCountPred [] tr s.current_time_ms) = 0 := by
        apply List.countP_eq_zero.mpr
        intro n hn
        simp [relCountPred]
      rw [h0]
      rfl
  | cons i l ih =>
      intro s hnd hlnd
      rw [List.foldl_cons]
      have hlnd' := (List.nodup_cons.mp hlnd).2
      have hinotl : i ∉ l := (List.nodup_cons.mp hlnd).1
      have hnd' : ((releaseStep tr s i).notes.map Note.id).Nodup := by
        rw [releaseStep_ids]
        exact hnd
      rw [ih (releaseStep tr s i) hnd' hlnd', releaseStep_time]
      cases hf : s.notes.find? (fun n => n.id == i) with
      | none =>
          have hstep : releaseStep tr s i = s := by
            unfold releaseStep
            rw [hf]
          rw [hstep]
          have hcong : s.notes.countP (relCountPred l tr s.current_time_ms)
              = s.notes.countP (relCountPred (i :: l) tr s.current_time_ms) := by
            apply List.countP_congr
            intro n hn
            have hnid : n.id ≠ i := by
              have := List.find?_eq_none.mp hf n hn
              simpa using this
            simp [relCountPred, List.mem_cons, hnid]
          rw [hcong]
      | some note =>
          have hmem := List.mem_of_find?_eq_some hf
          have hid : note.id = i := by
            have := List.find?_some hf
            simpa using this
          by_cases htgt : releaseBadTarget tr s.current_time_ms note
          · by_cases hbad : note.judgement ≠ some JudgementResult.bad
            · have htgt' := htgt
              unfold releaseBadTarget at htgt'
              have hstep_counts :
                  (releaseStep tr s i).judgement_system.judgement_counts
                      JudgementResult.bad
                    = s.judgement_system.judgement_counts JudgementResult.bad
                      + 1 := by
                unfold releaseStep
                rw [hf]
                simp only []
                rw [if_pos htgt', if_pos hbad]
                show bumpCount s.judgement_system.judgement_counts
                    JudgementResult.bad JudgementResult.bad
                  = s.judgement_system.judgement_counts JudgementResult.bad + 1
                exact bumpCount_self _ _
              have hstep_notes : (releaseStep tr s i).notes
                  = updateNoteList s.notes i
                      (fun n => { n with judgement := some JudgementResult.bad }) := by
                unfold releaseStep
                rw [hf]
                simp only []
                rw [if_pos htgt', if_pos hbad]
              rw [hstep_counts, hstep_notes]
              unfold updateNoteList
              rw [List.countP_map]
              have hsplit := countP_split_at s.notes hnd note hmem
                (fun n => relCountPred l tr s.current_time_ms
                  (if n.id = i then
                    { n with judgement := some JudgementResult.bad } else n))
                (relCountPred (i :: l) tr s.current_time_ms)
                ?_ ?_ ?_
              · have hc : (List.countP
                    ((relCountPred l tr s.current_time_ms) ∘ fun n =>
                      if n.id = i then
                        { n with judgement := some JudgementResult.bad } else n)
                    s.notes)
                  = List.countP
                    (fun n => relCountPred l tr s.current_time_ms
                      (if n.id = i then
                        { n with judgement := some JudgementResult.bad } else n))
                    s.notes := rfl
                rw [hc, hsplit]
                omega
              · simp only []
                rw [if_pos hid]
                simp only [relCountPred]
                have : note.id ∉ l := by
                  rw [hid]
                  exact hinotl
                simp [this]
              · simp only [relCountPred]
                have h1 : note.id ∈ i :: l := by
                  rw [hid]
                  exact List.mem_cons_self i l
                simp [h1, htgt, hbad]
              · intro x hx hxid
                have hxi : x.id ≠ i := by
                  rw [← hid]
                  exact hxid
                simp only []
                rw [if_neg hxi]
                simp [relCountPred, List.mem_cons, hxi]
            · have hstep : releaseStep tr s i = s := by
                unfold releaseStep
                rw [hf]
                simp only []
                have htgt' := htgt
                unfold releaseBadTarget at htgt'
                rw [if_pos htgt', if_neg hbad]
              rw [hstep]
              have hcong : s.notes.countP (relCountPred l tr s.current_time_ms)
                  = s.notes.countP (relCountPred (i :: l) tr s.current_time_ms) := by
                apply List.countP_congr
                intro n hn
                by_cases hnid : n.id = i
                · have hne : n = note :=
                    eq_of_mem_of_nodup_ids hnd hn hmem (by rw [hnid, hid])
                  subst hne
                  have hnl : n.id ∉ l := by
                    rw [hnid]
                    exact hinotl
                  simp [relCountPred, hnl, hbad]
                · simp [relCountPred, List.mem_cons, hnid]
              rw [hcong]
          · have hstep : releaseStep tr s i = s := by
              unfold releaseStep
              rw [hf]
              simp only []
              unfold releaseBadTarget at htgt
              rw [if_neg htgt]
            rw [hstep]
            have hcong : s.notes.countP (relCountPred l tr s.current_time_ms)
                = s.notes.countP (relCountPred (i :: l) tr s.current_time_ms) := by
              apply List.countP_congr
              intro n hn
              by_cases hnid : n.id = i
              · have hne : n = note :=
                  eq_of_mem_of_nodup_ids hnd hn hmem (by rw [hnid, hid])
                subst hne
                have hnl : n.id ∉ l := by
                  rw [hnid]
                  exact hinotl
                simp [relCountPred, hnl, htgt]
              · simp [relCountPred, List.mem_cons, hnid]
            rw [hcong]

/-- A note whose id is not the processed one survives one release step
unchanged. -/
theorem releaseStep_mem_of_ne (tr : Int) (s : GameState) (j : Nat) {x : Note}
    (hx : x ∈ s.notes) (hne : x.id ≠ j) : x ∈ (releaseStep tr s j).notes := by
  unfold releaseStep
  cases hf : s.notes.find? (fun n => n.id == j) with
  | none => exact hx
  | some note =>
      simp only []
      split
      · split
        · exact mem_updateNoteList_of_ne hx j _ hne
        · exact hx
      · exact hx

/-- A note whose id is not in the processed list survives the whole
release loop unchanged. -/
theorem release_fold_mem_of_notin (tr : Int) :
    ∀ (l : List Nat) (s : GameState) (x : Note), x ∈ s.notes → x.id ∉ l →
      x ∈ (l.foldl (releaseStep tr) s).notes := by
  intro l
  induction l with
  | nil => intro s x hx _; exact hx
  | cons j l ih =>
      intro s x hx hnotin
      rw [List.foldl_cons]
      have hne : x.id ≠ j := fun h => hnotin (by rw [h]; exact List.mem_cons_self j l)
      exact ih (releaseStep tr s j) x (releaseStep_mem_of_ne tr s j hx hne)
        (fun h => hnotin (List.mem_cons_of_mem j h))

/-- The release loop keeps the id list. -/
theorem release_fold_ids (tr : Int) (l : List Nat) (s : GameState) :
    (l.foldl (releaseStep tr) s).notes.map Note.id = s.notes.map Note.id :=
  foldl_fix (releaseStep tr) (fun s' => s'.notes.map Note.id)
    (fun s' a => releaseStep_ids tr s' a) l s

/-- After the release loop has processed a note's id, a target note
carries the Bad judgement. -/
theorem release_fold_sets_bad (tr : Int) :
    ∀ (l : List Nat) (s : GameState), (s.notes.map Note.id).Nodup →
      ∀ m ∈ (l.foldl (releaseStep tr) s).notes,
        m.id ∈ l → releaseBadTarget tr s.current_time_ms m →
        m.judgement = some JudgementResult.bad := by
  intro l
  induction l with
  | nil => intro s _ m _ hml; cases hml
  | cons i l ih =>
      intro s hnd m hm hml htgt
      rw [List.foldl_cons] at hm
      have hnd' : ((releaseStep tr s i).notes.map Note.id).Nodup := by
        rw [releaseStep_ids]
        exact hnd
      by_cases hmil : m.id ∈ l
      · have := ih (releaseStep tr s i) hnd' m hm hmil
        rw [releaseStep_time] at this
        exact this htgt
      · have hmi : m.id = i := by
          rcases List.mem_cons.mp hml with h | h
          · exact h
          · exact absurd h hmil
        -- the fold result still lists the original ids
        have hresnd : ((l.foldl (releaseStep tr) (releaseStep tr s i)).notes.map
            Note.id).Nodup := by
          rw [release_fold_ids, releaseStep_ids]
          exact hnd
        -- find the witness note with id i surviving the fold
        cases hf : s.notes.find? (fun n => n.id == i) with
        | none =>
            exfalso
            have hin : m.id ∈ (l.foldl (releaseStep tr) (releaseStep tr s i)).notes.map
                Note.id := List.mem_map_of_mem Note.id hm
            rw [release_fold_ids, releaseStep_ids] at hin
            rcases List.mem_map.mp hin with ⟨x, hx, hxe⟩
            have := List.find?_eq_none.mp hf x hx
            rw [hmi] at hxe
            simp [hxe] at this
        | some note =>
            have hmem := List.mem_of_find?_eq_some hf
            have hidn : note.id = i := by
              have := List.find?_some hf
              simpa using this
            by_cases htgtn : releaseBadTarget tr s.current_time_ms note
            · by_cases hbadn : note.judgement ≠ some JudgementResult.bad
              · -- the step stamps the Bad; the fold keeps the stamped note
                have hstep_notes : (releaseStep tr s i).notes
                    = updateNoteList s.notes i
                        (fun n => { n with judgement := some JudgementResult.bad }) := by
                  unfold releaseStep
                  rw [hf]
                  simp only []
                  have htgtn' := htgtn
                  unfold releaseBadTarget at htgtn'
                  rw [if_pos htgtn', if_pos hbadn]
                have hwit : ({ note with judgement := some JudgementResult.bad } : Note)
                    ∈ (releaseStep tr s i).notes := by
                  rw [hstep_notes]
                  exact mem_updateNoteList_self hmem i _ hidn
                have hwit' := release_fold_mem_of_notin tr l (releaseStep tr s i)
                  _ hwit (by simpa [hidn] using (by rw [hmi] at hmil; exact hmil : i ∉ l))
                have hmeq : m = { note with judgement := some JudgementResult.bad } :=
                  eq_of_mem_of_nodup_ids hresnd hm hwit' (by rw [hmi]; simp [hidn])
                rw [hmeq]
              · -- the note was already Bad and the step left the state alone
                push_neg at hbadn
                have hstep : releaseStep tr s i = s := by
                  unfold releaseStep
                  rw [hf]
                  simp only []
                  have htgtn' := htgtn
                  unfold releaseBadTarget at htgtn'
                  rw [if_pos htgtn', if_neg (by simp [hbadn])]
                have hwit' := release_fold_mem_of_notin tr l (releaseStep tr s i)
                  note (by rw [hstep]; exact hmem)
                  (by rw [hidn]; rw [hmi] at hmil; exact hmil)
                have hmeq : m = note :=
                  eq_of_mem_of_nodup_ids hresnd hm hwit' (by rw [hmi, hidn])
                rw [hmeq, hbadn]
            · -- not a target: the step leaves the state alone, and m = note
              -- contradicts the target hypothesis
              exfalso
              have hstep : releaseStep tr s i = s := by
                unfold releaseStep
                rw [hf]
                simp only []
                have htgtn' := htgtn
                unfold releaseBadTarget at htgtn'
                rw [if_neg htgtn']
              have hwit' := release_fold_mem_of_notin tr l (releaseStep tr s i)
                note (by rw [hstep]; exact hmem)
                (by rw [hidn]; rw [hmi] at hmil; exact hmil)
              have hmeq : m = note :=
                eq_of_mem_of_nodup_ids hresnd hm hwit' (by rw [hmi, hidn])
              rw [hmeq] at htgt
              exact htgtn htgt

/-- The release loop keeps the clock (whole-loop version). -/
theorem release_forced_bad_time (s : GameState) (tr : Int) :
    (s.release_forced_bad tr).current_time_ms = s.current_time_ms :=
  foldl_fix (releaseStep tr) (fun s' => s'.current_time_ms)
    (fun s' a => releaseStep_time tr s' a) _ s

/-- A hit Hold note on track 1 whose very first classification was
already Bad (a press at 190ms offset), incomplete at t = 2100ms; the Bad
counter already records that classification. -/
def noteC6 : Note :=
  { Note.mk' 0 1 NoteType.hold 2000 1000 with
      hit := true, judgement := some JudgementResult.bad, held_time := 0 }

def stateC6 : GameState :=
  { playingState [noteC6] 2100 with
      judgement_system := { freshJS Difficulty.normal 1 with
        judgement_counts := fun r => if r = JudgementResult.bad then 1 else 0 } }

/-- Counterexample to C6: `noteC6` is a hit, not-yet-complete Hold note
on track 1, yet releasing track 1 increments the Bad counter by 0, not
by exactly 1 (the release loop skips notes already judged Bad). -/
theorem hold_release_bad_count_cex :
    noteC6.type = NoteType.hold ∧ noteC6.hit = true
    ∧ noteC6.is_complete stateC6.current_time_ms = false
    ∧ stateC6.judgement_system.judgement_counts JudgementResult.bad = 1
    ∧ (stateC6.judge_note 1 JudgeAction.release).1.judgement_system.judgement_counts
        JudgementResult.bad = 1
    ∧ (stateC6.judge_note 1 JudgeAction.release).1.notes.length = 1 := by
  decide

/-- C6 as amended: with distinct note ids, the release loop increments
the Bad counter by exactly one per hit, not-yet-complete Hold note on the
released track whose judgement is not already Bad (and by zero for one
already judged Bad); it evicts nothing (the id list is unchanged); every
target note ends up judged Bad, so a second release of the same track
adds nothing further. -/
theorem hold_release_bad_amended (s : GameState) (tr : Int)
    (hnd : (s.notes.map Note.id).Nodup) :
    ((s.release_forced_bad tr).judgement_system.judgement_counts
          JudgementResult.bad
        = s.judgement_system.judgement_counts JudgementResult.bad
          + s.notes.countP (fun n =>
              decide (releaseBadTarget tr s.current_time_ms n)
                && decide (n.judgement ≠ some JudgementResult.bad)))
    ∧ (s.release_forced_bad tr).notes.map Note.id = s.notes.map Note.id
    ∧ (∀ m ∈ (s.release_forced_bad tr).notes,
        releaseBadTarget tr s.current_time_ms m →
        m.judgement = some JudgementResult.bad)
    ∧ ((s.release_forced_bad tr).release_forced_bad tr).judgement_system.judgement_counts
          JudgementResult.bad
        = (s.release_forced_bad tr).judgement_system.judgement_counts
            JudgementResult.bad := by
  have hids : (s.release_forced_bad tr).notes.map Note.id = s.notes.map Note.id :=
    release_fold_ids tr _ s
  have hsets : ∀ m ∈ (s.release_forced_bad tr).notes,
      releaseBadTarget tr s.current_time_ms m →
      m.judgement = some JudgementResult.bad := by
    intro m hm htgt
    apply release_fold_sets_bad tr (s.notes.map Note.id) s hnd m hm _ htgt
    have : m.id ∈ (s.release_forced_bad tr).notes.map Note.id :=
      List.mem_map_of_mem Note.id hm
    rw [hids] at this
    exact this
  have hdef : ∀ s' : GameState, s'.release_forced_bad tr
      = (s'.notes.map Note.id).foldl (releaseStep tr) s' := fun s' => rfl
  refine ⟨?_, hids, hsets, ?_⟩
  · rw [hdef s, release_fold_bad_count tr (s.notes.map Note.id) s hnd hnd]
    congr 1
    apply List.countP_congr
    intro n hn
    have : n.id ∈ s.notes.map Note.id := List.mem_map_of_mem Note.id hn
    simp [relCountPred, this]
  · have hnd' : ((s.release_forced_bad tr).notes.map Note.id).Nodup := by
      rw [hids]
      exact hnd
    conv_lhs => rw [hdef (s.release_forced_bad tr)]
    rw [release_fold_bad_count tr ((s.release_forced_bad tr).notes.map Note.id)
      (s.release_forced_bad tr) hnd' hnd']
    have hzero : (s.release_forced_bad tr).notes.countP
        (relCountPred ((s.release_forced_bad tr).notes.map Note.id) tr
          (s.release_forced_bad tr).current_time_ms) = 0 := by
      apply List.countP_eq_zero.mpr
      intro m hm
      rw [release_forced_bad_time]
      by_cases htgt : releaseBadTarget tr s.current_time_ms m
      · have := hsets m hm htgt
        simp [relCountPred, this]
      · simp [relCountPred, htgt]
    rw [hzero]
    omega

/-- A hit Hold note judged Perfect, incomplete at t = 2100ms, and the
state holding it, for the C6 witness. -/
def noteC6w : Note :=
  { Note.mk' 0 1 NoteType.hold 2000 1000 with
      hit := true, judgement := some JudgementResult.perfect, held_time := 100 }

def stateC6w : GameState := playingState [noteC6w] 2100

/-- Witness for C6 as amended: on a one-note state with a Perfect-judged
hit Hold note, the release loop adds exactly one Bad, keeps the note, and
a second release adds nothing. -/
theorem hold_release_bad_amended_witness :
    ((stateC6w.release_forced_bad 1).judgement_system.judgement_counts
          JudgementResult.bad
        = stateC6w.judgement_system.judgement_counts JudgementResult.bad
          + stateC6w.notes.countP (fun n =>
              decide (releaseBadTarget 1 stateC6w.current_time_ms n)
                && decide (n.judgement ≠ some JudgementResult.bad)))
    ∧ (stateC6w.release_forced_bad 1).notes.map Note.id
        = stateC6w.notes.map Note.id
    ∧ (∀ m ∈ (stateC6w.release_forced_bad 1).notes,
        releaseBadTarget 1 stateC6w.current_time_ms m →
        m.judgement = some JudgementResult.bad)
    ∧ ((stateC6w.release_forced_bad 1).release_forced_bad 1).judgement_system.judgement_counts
          JudgementResult.bad
        = (stateC6w.release_forced_bad 1).judgement_system.judgement_counts
            JudgementResult.bad :=
  hold_release_bad_amended stateC6w 1 (by decide)

/-! ### Claim C4: the Drag rule -/

/-- The Drag rule keeps the id list. -/
theorem dragStep_ids (s : GameState) (i : Nat) :
    (dragStep s i).notes.map Note.id = s.notes.map Note.id := by
  unfold dragStep
  cases hf : s.notes.find? (fun n => n.id == i) with
  | none => rfl
  | some note =>
      simp only []
      split
      · split
        · split
          · unfold GameState.judge_perfect
            rw [judge_note_impl_notes]
            exact updateNoteList_map_id s.notes i _ (fun n => rfl)
          · rw [judge_miss_notes]
            exact updateNoteList_map_id s.notes i _ (fun n => rfl)
        · rfl
      · rfl

/-- The Drag rule never touches the tracks. -/
theorem dragStep_tracks (s : GameState) (i : Nat) :
    (dragStep s i).tracks = s.tracks := by
  unfold dragStep
  cases hf : s.notes.find? (fun n => n.id == i) with
  | none => rfl
  | some note =>
      simp only []
      split
      · split
        · split
          · unfold GameState.judge_perfect
            rw [judge_note_impl_tracks]
          · rw [judge_miss_tracks]
        · rfl
      · rfl

/-- A note whose id is not the processed one survives one Drag step
unchanged. -/
theorem dragStep_mem_of_ne (s : GameState) (j : Nat) {x : Note}
    (hx : x ∈ s.notes) (hne : x.id ≠ j) : x ∈ (dragStep s j).notes := by
  unfold dragStep
  cases hf : s.notes.find? (fun n => n.id == j) with
  | none => exact hx
  | some note =>
      simp only []
      split
      · split
        · split
          · unfold GameState.judge_perfect
            rw [judge_note_impl_notes]
            exact mem_updateNoteList_of_ne hx j _ hne
          · rw [judge_miss_notes]
            exact mem_updateNoteList_of_ne hx j _ hne
        · exact hx
      · exact hx

/-- A note whose id is not in the processed list survives the whole Drag
loop unchanged. -/
theorem drag_fold_mem_of_notin :
    ∀ (l : List Nat) (s : GameState) (x : Note), x ∈ s.notes → x.id ∉ l →
      x ∈ (l.foldl dragStep s).notes := by
  intro l
  induction l with
  | nil => intro s x hx _; exact hx
  | cons j l ih =>
      intro s x hx hnotin
      rw [List.foldl_cons]
      have hne : x.id ≠ j := fun h => hnotin (by rw [h]; exact List.mem_cons_self j l)
      exact ih (dragStep s j) x (dragStep_mem_of_ne s j hx hne)
        (fun h => hnotin (List.mem_cons_of_mem j h))

/-- The Drag loop keeps the id list. -/
theorem drag_fold_ids (l : List Nat) (s : GameState) :
    (l.foldl dragStep s).notes.map Note.id = s.notes.map Note.id :=
  foldl_fix dragStep (fun s' => s'.notes.map Note.id) dragStep_ids l s

/-- The Drag loop never touches the tracks. -/
theorem drag_fold_tracks (l : List Nat) (s : GameState) :
    (l.foldl dragStep s).tracks = s.tracks :=
  foldl_fix dragStep (fun s' => s'.tracks) dragStep_tracks l s

/-- The Drag loop keeps the clock. -/
theorem drag_fold_time (l : List Nat) (s : GameState) :
    (l.foldl dragStep s).current_time_ms = s.current_time_ms :=
  foldl_fix dragStep (fun s' => s'.current_time_ms) dragStep_time l s

/-- Track activation only depends on the tracks. -/
theorem check_track_state_congr {s s' : GameState} (h : s'.tracks = s.tracks)
    (i : Int) : s'.check_track_state i = s.check_track_state i := by
  unfold GameState.check_track_state
  rw [h]

/-- Characterization of one Drag step at an unhit in-window Drag note. -/
theorem dragStep_eq (s : GameState) (i : Nat) (note : Note)
    (hf : s.notes.find? (fun n => n.id == i) = some note)
    (hdrag : note.type = NoteType.drag) (hunhit : note.hit = false)
    (hwin : |s.current_time_ms - note.perfect_time| ≤ 200) :
    dragStep s i = if s.check_track_state note.track_index
      then s.judge_perfect i else s.judge_miss i := by
  unfold dragStep
  rw [hf]
  simp only []
  rw [if_pos ⟨hdrag, hunhit⟩, if_pos hwin]

/-- C4: in the Drag loop of a non-autoplay tick, an unhit Drag note whose
offset to its perfect_time is within 200ms is judged at once — marked hit
with Perfect if its track is currently activated and Miss otherwise —
with no track pressed or released by the loop; being marked hit, it is
never evaluated again by a later Drag loop. -/
theorem drag_window_judged (s : GameState) (n : Note)
    (hnd : (s.notes.map Note.id).Nodup) (hmem : n ∈ s.notes)
    (hdrag : n.type = NoteType.drag) (hunhit : n.hit = false)
    (hwin : |s.current_time_ms - n.perfect_time| ≤ 200) :
    s.drag_phase.tracks = s.tracks
    ∧ ∃ m ∈ s.drag_phase.notes, m.id = n.id ∧ m.hit = true
        ∧ m.judgement = some (if s.check_track_state n.track_index
            then JudgementResult.perfect else JudgementResult.miss) := by
  have hdef : s.drag_phase = (s.notes.map Note.id).foldl dragStep s := rfl
  constructor
  · rw [hdef]
    exact drag_fold_tracks _ s
  · have hidmem : n.id ∈ s.notes.map Note.id := List.mem_map_of_mem Note.id hmem
    obtain ⟨l₁, l₂, hsplit⟩ := List.append_of_mem hidmem
    have hnd12 : (l₁ ++ n.id :: l₂).Nodup := by
      rw [← hsplit]
      exact hnd
    have hn1 : n.id ∉ l₁ := by
      intro hin
      exact (List.nodup_append.mp hnd12).2.2 hin (List.mem_cons_self _ _)
    have hn2 : n.id ∉ l₂ :=
      (List.nodup_cons.mp (List.nodup_append.mp hnd12).2.1).1
    rw [hdef, hsplit, List.foldl_append]
    have hs1mem : n ∈ (l₁.foldl dragStep s).notes :=
      drag_fold_mem_of_notin l₁ s n hmem hn1
    have hs1tracks : (l₁.foldl dragStep s).tracks = s.tracks :=
      drag_fold_tracks l₁ s
    have hs1time : (l₁.foldl dragStep s).current_time_ms = s.current_time_ms :=
      drag_fold_time l₁ s
    have hs1ids : (l₁.foldl dragStep s).notes.map Note.id = s.notes.map Note.id :=
      drag_fold_ids l₁ s
    have hs1nd : ((l₁.foldl dragStep s).notes.map Note.id).Nodup := by
      rw [hs1ids]
      exact hnd
    rw [List.foldl_cons]
    have hfind : (l₁.foldl dragStep s).notes.find? (fun m => m.id == n.id)
        = some n :=
      find_id_of_unique _ n hs1mem
        (fun m hm hid => eq_of_mem_of_nodup_ids hs1nd hm hs1mem hid)
    have hcts : (l₁.foldl dragStep s).check_track_state n.track_index
        = s.check_track_state n.track_index :=
      check_track_state_congr hs1tracks n.track_index
    have hwin1 : |(l₁.foldl dragStep s).current_time_ms - n.perfect_time| ≤ 200 := by
      rw [hs1time]
      exact hwin
    have hstep := dragStep_eq (l₁.foldl dragStep s) n.id n hfind hdrag hunhit hwin1
    rw [hcts] at hstep
    by_cases hact : s.check_track_state n.track_index
    · rw [hstep, if_pos hact, if_pos hact]
      have hjudged : ({ n with hit := true, judgement := some JudgementResult.perfect } : Note) ∈ ((l₁.foldl dragStep s).judge_perfect n.id).notes := by
        unfold GameState.judge_perfect
        rw [judge_note_impl_notes, get_judgement_zero]
        exact mem_updateNoteList_self hs1mem n.id _ rfl
      have hfinal := drag_fold_mem_of_notin l₂ _ _ hjudged hn2
      exact ⟨_, hfinal, rfl, rfl, rfl⟩
    · rw [hstep, if_neg hact, if_neg hact]
      have hjudged : ({ n with hit := true, judgement := some JudgementResult.miss } : Note) ∈ ((l₁.foldl dragStep s).judge_miss n.id).notes := by
        rw [judge_miss_notes]
        exact mem_updateNoteList_self hs1mem n.id _ rfl
      have hfinal := drag_fold_mem_of_notin l₂ _ _ hjudged hn2
      exact ⟨_, hfinal, rfl, rfl, rfl⟩

/-- Scenario 4's Drag note on track 2 at perfect_time 5000ms, and the
state at t = 4905ms with track 2 held. -/
def noteC4 : Note := Note.mk' 0 2 NoteType.drag 5000 0

def stateC4 : GameState :=
  { playingState [noteC4] 4905 with
      tracks := [⟨0, false, 0, 0⟩, ⟨1, false, 0, 0⟩, ⟨2, true, 4900, 1⟩,
        ⟨3, false, 0, 0⟩] }

/-- Witness for C4: scenario 4 — the Drag loop judges the held Drag note
Perfect without any press event. -/
theorem drag_window_judged_witness :
    stateC4.drag_phase.tracks = stateC4.tracks
    ∧ ∃ m ∈ stateC4.drag_phase.notes, m.id = noteC4.id ∧ m.hit = true
        ∧ m.judgement = some (if stateC4.check_track_state noteC4.track_index
            then JudgementResult.perfect else JudgementResult.miss) :=
  drag_window_judged stateC4 noteC4 (by decide) (by decide) (by decide)
    (by decide) (by decide)
